import Mathlib

/-!
Shallow embedding of the HabitTracker-MCP streak engine
(`src/domain/streak.rs` and `src/domain/types.rs`).

Calendar dates are modelled as `Int` day numbers (days since 1970-01-01,
the same day-count arithmetic `chrono::NaiveDate` exposes through
`Duration::days` and subtraction).  The Gregorian field conversion
(`year`, month, day, ordinal day) follows the standard civil-calendar
algorithms, and the ISO-8601 week number follows the ISO 8601 rule that
`chrono`'s `iso_week()` implements.  `Utc::now().naive_utc().date()` is
modelled as an explicit `today : Int` parameter, and Rust `f64`
arithmetic in the completion-rate estimator is modelled exactly over `ℚ`.
-/

namespace HabitTracker

/-- Day-number of the Gregorian date `(y, m, d)` relative to 1970-01-01
(the standard `days_from_civil` civil-calendar algorithm). -/
def days_from_civil (y m d : Int) : Int :=
  let yAdj : Int := if m ≤ 2 then y - 1 else y
  let era : Int := (if 0 ≤ yAdj then yAdj else yAdj - 399) / 400
  let yoe : Int := yAdj - era * 400
  let doy : Int := (153 * (if 2 < m then m - 3 else m + 9) + 2) / 5 + d - 1
  let doe : Int := yoe * 365 + yoe / 4 - yoe / 100 + doy
  era * 146097 + doe - 719468

/-- Gregorian calendar year of a day number (first component of the
standard `civil_from_days` inversion); this is `chrono`'s `date.year()`. -/
def yearOf (z0 : Int) : Int :=
  let z : Int := z0 + 719468
  let era : Int := (if 0 ≤ z then z else z - 146096) / 146097
  let doe : Int := z - era * 146097
  let yoe : Int := (doe - doe / 1460 + doe / 36524 - doe / 146096) / 365
  let y : Int := yoe + era * 400
  let doy : Int := doe - (365 * yoe + yoe / 4 - yoe / 100)
  let mp : Int := (5 * doy + 2) / 153
  let m : Int := if mp < 10 then mp + 3 else mp - 9
  if m ≤ 2 then y + 1 else y

/-- Number of days from Monday, 0 = Monday .. 6 = Sunday
(`chrono`'s `weekday().num_days_from_monday()`; day 0 = 1970-01-01 was a
Thursday, value 3). -/
def dowFromMonday (z : Int) : Int := (z + 3) % 7

/-- Whether the day falls on Saturday or Sunday
(`matches!(date.weekday(), Sat | Sun)`). -/
def isWeekend (z : Int) : Bool := 5 ≤ dowFromMonday z

/-- Ordinal day within its calendar year (Jan 1 = 1). -/
def ordinalDay (z : Int) : Int := z - days_from_civil (yearOf z) 1 1 + 1

/-- ISO weekday number, Monday = 1 .. Sunday = 7. -/
def isoWeekdayNum (z : Int) : Int := dowFromMonday z + 1

/-- Number of ISO weeks (52 or 53) in ISO year `y`, per the ISO 8601
rule: 53 weeks iff the year starts on Thursday or is a leap year
starting on Wednesday. -/
def isoWeekCount (y : Int) : Int :=
  let p : Int → Int := fun yy => (yy + yy / 4 - yy / 100 + yy / 400) % 7
  if p y = 4 ∨ p (y - 1) = 3 then 53 else 52

/-- ISO-8601 week number (1..53) of a day number; this is `chrono`'s
`date.iso_week().week()`. -/
def isoWeekNumber (z : Int) : Int :=
  let y := yearOf z
  let w := (ordinalDay z - isoWeekdayNum z + 10) / 7
  if w < 1 then isoWeekCount (y - 1)
  else if isoWeekCount y < w then 1
  else w

/-- Day of week as a named enumeration, mirroring `chrono::Weekday`. -/
inductive Weekday where
  | Mon | Tue | Wed | Thu | Fri | Sat | Sun
deriving DecidableEq, Repr

/-- The `chrono::Weekday` of a day number. -/
def weekdayOf (z : Int) : Weekday :=
  let n := dowFromMonday z
  if n = 0 then .Mon
  else if n = 1 then .Tue
  else if n = 2 then .Wed
  else if n = 3 then .Thu
  else if n = 4 then .Fri
  else if n = 5 then .Sat
  else .Sun

/-- Habit recurrence pattern (`Frequency` in `src/domain/types.rs`). -/
inductive Frequency where
  | Daily
  | Weekly (times_per_week : Nat)
  | Weekdays
  | Weekends
  | Custom (weekdays : List Weekday)
  | Interval (days_interval : Nat)
deriving DecidableEq, Repr

/-- Domain error type; the streak core only ever produces
`InvalidFrequency` (from `Frequency::validate`). -/
inductive DomainError where
  | InvalidFrequency (msg : String)
deriving DecidableEq, Repr

/-- Embedding of `Frequency::validate` from `src/domain/types.rs`. -/
def Frequency.validate : Frequency → Except DomainError Unit
  | .Weekly times =>
      if times = 0 ∨ 7 < times then
        .error (.InvalidFrequency
          ("Weekly frequency must be 1-7, got " ++ toString times))
      else .ok ()
  | .Custom days =>
      if days.isEmpty then
        .error (.InvalidFrequency
          "Custom frequency must specify at least one day")
      else if 7 < days.length then
        .error (.InvalidFrequency
          "Custom frequency cannot have more than 7 days")
      else .ok ()
  | .Interval days =>
      if days = 0 then
        .error (.InvalidFrequency "Interval must be at least 1 day")
      else if 365 < days then
        .error (.InvalidFrequency "Interval cannot be longer than 365 days")
      else .ok ()
  | _ => .ok ()

/-- A habit-completion record (`HabitEntry` in `src/domain/entry.rs`).
Only `completed_at` is ever read by the streak module; the remaining
fields (`id`, `habit_id`, `logged_at`, `value`, `intensity`, `notes`)
never influence the computation and are omitted from the model. -/
structure HabitEntry where
  completed_at : Int
deriving DecidableEq, Repr

/-- Whether some entry in the list is dated exactly `d`
(`entries.iter().any(|e| e.completed_at == d)`). -/
def hasEntry (entries : List HabitEntry) (d : Int) : Bool :=
  entries.any (fun e => e.completed_at == d)

/-- Stable insertion step for descending sort by `completed_at`. -/
def insertDesc (e : HabitEntry) : List HabitEntry → List HabitEntry
  | [] => [e]
  | x :: xs =>
      if x.completed_at ≤ e.completed_at then e :: x :: xs
      else x :: insertDesc e xs

/-- Stable sort, newest first
(`sort_by(|a, b| b.completed_at.cmp(&a.completed_at))`). -/
def sortDesc (entries : List HabitEntry) : List HabitEntry :=
  entries.foldr insertDesc []

/-- Stable insertion step for ascending sort by `completed_at`. -/
def insertAsc (e : HabitEntry) : List HabitEntry → List HabitEntry
  | [] => [e]
  | x :: xs =>
      if e.completed_at ≤ x.completed_at then e :: x :: xs
      else x :: insertAsc e xs

/-- Stable sort, oldest first
(`sort_by(|a, b| a.completed_at.cmp(&b.completed_at))`). -/
def sortAsc (entries : List HabitEntry) : List HabitEntry :=
  entries.foldr insertAsc []

/-- Calculated streak statistics (`Streak` in `src/domain/streak.rs`).
The UUID `habit_id` is modelled as a `Nat`; `completion_rate` is the
`f64` field modelled over `ℚ`. -/
structure Streak where
  habit_id : Nat
  current_streak : Nat
  longest_streak : Nat
  last_completed : Option Int
  total_completions : Nat
  completion_rate : ℚ
deriving DecidableEq, Repr

/-- Embedding of `Streak::new`: the all-zero record. -/
def Streak.new (habit_id : Nat) : Streak :=
  { habit_id := habit_id, current_streak := 0, longest_streak := 0,
    last_completed := none, total_completions := 0, completion_rate := 0 }

/-- Backward walk stepping `step` days at a time, bounded by `fuel`
(the `for _ in 0..365` loops of the `Daily` and `Interval` branches of
`calculate_current_streak`: count while an entry exists, stop at the
first miss). -/
def walkStep (entries : List HabitEntry) (step : Int) : Nat → Int → Nat → Nat
  | 0, _, acc => acc
  | fuel + 1, d, acc =>
      if hasEntry entries d then walkStep entries step fuel (d - step) (acc + 1)
      else acc

/-- Backward walk that skips days satisfying `skip` (a skipped day still
consumes one loop iteration, as in the source), counts days carrying an
entry, and stops at the first qualifying day without an entry (the
`for _ in 0..365` loops of the `Weekdays`, `Weekends` and `Custom`
branches of `calculate_current_streak`). -/
def walkSkip (skip : Int → Bool) (entries : List HabitEntry) : Nat → Int → Nat → Nat
  | 0, _, acc => acc
  | fuel + 1, d, acc =>
      if skip d then walkSkip skip entries fuel (d - 1) acc
      else if hasEntry entries d then walkSkip skip entries fuel (d - 1) (acc + 1)
      else acc

/-- Step backward while on a weekend day (`while matches!(weekday, Sat | Sun)
{ date -= 1 }`); a weekday is always reached within two steps, so fuel 7
makes this loop total without changing its value. -/
def backToWeekday : Nat → Int → Int
  | 0, d => d
  | fuel + 1, d => if isWeekend d then backToWeekday fuel (d - 1) else d

/-- Step backward while on a weekday (`while !matches!(weekday, Sat | Sun)
{ date -= 1 }`); a weekend day is always reached within five steps. -/
def backToWeekend : Nat → Int → Int
  | 0, d => d
  | fuel + 1, d => if isWeekend d then d else backToWeekend fuel (d - 1)

/-- The `Custom` branch's first anchor adjustment: step back first, then
test membership, stopping at the first member day
(`for _ in 0..7 { checking -= 1; if member { break } }`). -/
def customFindBackPre (ws : List Weekday) : Nat → Int → Int
  | 0, d => d
  | fuel + 1, d =>
      if ws.contains (weekdayOf (d - 1)) then d - 1
      else customFindBackPre ws fuel (d - 1)

/-- The `Custom` branch's second anchor adjustment: test membership first,
then step back (`for _ in 0..7 { if member { break } checking -= 1 }`). -/
def customFindBackPost (ws : List Weekday) : Nat → Int → Int
  | 0, d => d
  | fuel + 1, d =>
      if ws.contains (weekdayOf d) then d
      else customFindBackPost ws fuel (d - 1)

/-- The `Interval` branch's fallback anchor search: starting at today,
stop at the first day with an entry, stepping back at most `fuel`
(= interval) times (`for _ in 0..interval { if has_entry { break }
checking -= 1 }`). -/
def intervalFindBack (entries : List HabitEntry) : Nat → Int → Int
  | 0, d => d
  | fuel + 1, d =>
      if hasEntry entries d then d else intervalFindBack entries fuel (d - 1)

/-- Consecutive qualifying Monday-aligned weeks walking back from the
week starting at `weekStart`: a week qualifies when it contains at least
`t` entries; stop at the first non-qualifying week (the `Weekly` branch
of `calculate_current_streak`, `for week_offset in 0..52`). -/
def weeklyCurrentRun (entries : List HabitEntry) (t : Nat) : Nat → Int → Nat
  | 0, _ => 0
  | fuel + 1, weekStart =>
      let cnt := (entries.filter (fun e =>
        decide (weekStart ≤ e.completed_at ∧ e.completed_at ≤ weekStart + 6))).length
      if t ≤ cnt then 1 + weeklyCurrentRun entries t fuel (weekStart - 7) else 0

/-- Embedding of `Streak::calculate_current_streak`.  The ambient
`Utc::now()` date is the explicit `today` parameter.  As in the source,
the function is called on the list already sorted newest-first, so the
head of the list is the latest entry (`entries.first()` in the
`Interval` branch). -/
def Streak.calculate_current_streak (entries : List HabitEntry)
    (frequency : Frequency) (today : Int) : Nat :=
  match entries with
  | [] => 0
  | latest :: _ =>
    match frequency with
    | .Daily =>
        let start := if hasEntry entries today then today else today - 1
        walkStep entries 1 365 start 0
    | .Weekly t =>
        let base := today - dowFromMonday today
        weeklyCurrentRun entries t 52 base
    | .Weekdays =>
        let c0 := if isWeekend today then backToWeekday 7 today else today
        let c1 :=
          if !isWeekend today && !hasEntry entries today then
            backToWeekday 7 (c0 - 1)
          else c0
        walkSkip isWeekend entries 365 c1 0
    | .Weekends =>
        let c0 := if !isWeekend today then backToWeekend 7 today else today
        let c1 :=
          if isWeekend today && !hasEntry entries today then
            backToWeekend 7 (c0 - 1)
          else c0
        walkSkip (fun d => !isWeekend d) entries 365 c1 0
    | .Custom ws =>
        let c0 :=
          if !(ws.contains (weekdayOf today)) then customFindBackPre ws 7 today
          else today
        let c1 :=
          if ws.contains (weekdayOf today) && !hasEntry entries today then
            customFindBackPost ws 7 (c0 - 1)
          else c0
        walkSkip (fun d => !(ws.contains (weekdayOf d))) entries 365 c1 0
    | .Interval n =>
        let days_since_latest := today - latest.completed_at
        let start :=
          if days_since_latest.tmod n == 0 && !hasEntry entries today then
            today - (n : Int)
          else intervalFindBack entries n today
        walkStep entries (n : Int) 365 start 0

/-- Step forward while on a weekend day (`while matches!(expected.weekday(),
Sat | Sun) { expected += 1 }`); fuel 7 makes the loop total without
changing its value. -/
def fwdToWeekday : Nat → Int → Int
  | 0, d => d
  | fuel + 1, d => if isWeekend d then fwdToWeekday fuel (d + 1) else d

/-- Step forward while on a weekday (`while !matches!(expected.weekday(),
Sat | Sun) { expected += 1 }`). -/
def fwdToWeekend : Nat → Int → Int
  | 0, d => d
  | fuel + 1, d => if isWeekend d then d else fwdToWeekend fuel (d + 1)

/-- Next expected date after `last` for the `Weekdays` longest-streak
branch: the first non-weekend day strictly after `last`. -/
def nextWeekdayAfter (last : Int) : Int := fwdToWeekday 7 (last + 1)

/-- Next expected date after `last` for the `Weekends` longest-streak
branch: the first weekend day strictly after `last`. -/
def nextWeekendAfter (last : Int) : Int := fwdToWeekend 7 (last + 1)

/-- Forward membership search for the `Custom` longest-streak branch. -/
def customFindFwd (ws : List Weekday) : Nat → Int → Int
  | 0, d => d
  | fuel + 1, d =>
      if ws.contains (weekdayOf d) then d else customFindFwd ws fuel (d + 1)

/-- Next expected date after `last` for the `Custom` longest-streak
branch: the source advances from `last + 1` while the weekday is not in
the set, bailing out once `expected - last > 7`; so the result is the
first member day in `last+1 .. last+7`, and `last + 8` when the set
matches no weekday. -/
def nextCustomAfter (ws : List Weekday) (last : Int) : Int :=
  customFindFwd ws 7 (last + 1)

/-- The shared forward scan of the day-based longest-streak branches:
walk the ascending-sorted tail, extending the running streak when the
entry lands exactly on `next last` and otherwise closing it (recording
the maximum) and restarting at 1. -/
def longestRun (next : Int → Int) : List HabitEntry → Int → Nat → Nat → Nat
  | [], _, longest, cur => max longest cur
  | e :: rest, last, longest, cur =>
      if e.completed_at == next last then
        longestRun next rest e.completed_at longest (cur + 1)
      else
        longestRun next rest e.completed_at (max longest cur) 1

/-- The `year * 100 + iso_week_number` bucket key used by the `Weekly`
longest-streak branch (note: the calendar year, not the ISO week-year). -/
def week_key (z : Int) : Int := yearOf z * 100 + isoWeekNumber z

/-- Ascending insertion keeping keys unique. -/
def insertKey (k : Int) : List Int → List Int
  | [] => [k]
  | x :: xs =>
      if k < x then k :: x :: xs
      else if k = x then x :: xs
      else x :: insertKey k xs

/-- The distinct week keys of the entries, in ascending order (the
result of collecting the `HashMap` and applying `sort_by_key`). -/
def weekKeys (entries : List HabitEntry) : List Int :=
  entries.foldr (fun e acc => insertKey (week_key e.completed_at) acc) []

/-- The `(week_key, entry count)` association sorted ascending by key;
counts are numbers of entries (not of distinct dates), as in the source
map building. -/
def weekCounts (entries : List HabitEntry) : List (Int × Nat) :=
  (weekKeys entries).map (fun k =>
    (k, (entries.filter (fun e => week_key e.completed_at == k)).length))

/-- The `Weekly` longest-streak scan over sorted week buckets: a bucket
qualifies when its count reaches `t`; a qualifying bucket extends the
run when its key is `last + 1` or falls in the open interval
`(last + 50, last + 60)` (the source's year-boundary heuristic), and
otherwise restarts the run. -/
def weeklyLongestLoop (t : Nat) :
    List (Int × Nat) → Option Int → Nat → Nat → Nat
  | [], _, longest, cur => max longest cur
  | (k, c) :: rest, lastKey, longest, cur =>
      if t ≤ c then
        match lastKey with
        | some lk =>
            if k = lk + 1 ∨ (lk + 50 < k ∧ k < lk + 60) then
              weeklyLongestLoop t rest (some k) longest (cur + 1)
            else
              weeklyLongestLoop t rest (some k) (max longest cur) 1
        | none => weeklyLongestLoop t rest (some k) longest 1
      else weeklyLongestLoop t rest none (max longest cur) 0

/-- Embedding of `Streak::calculate_longest_streak`: re-sorts its input
ascending and scans forward per frequency variant. -/
def Streak.calculate_longest_streak (entries : List HabitEntry)
    (frequency : Frequency) : Nat :=
  match sortAsc entries with
  | [] => 0
  | e0 :: rest =>
    match frequency with
    | .Daily => longestRun (fun d => d + 1) rest e0.completed_at 0 1
    | .Weekly t => weeklyLongestLoop t (weekCounts entries) none 0 0
    | .Weekdays => longestRun nextWeekdayAfter rest e0.completed_at 0 1
    | .Weekends => longestRun nextWeekendAfter rest e0.completed_at 0 1
    | .Custom ws => longestRun (nextCustomAfter ws) rest e0.completed_at 0 1
    | .Interval n => longestRun (fun d => d + (n : Int)) rest e0.completed_at 0 1

/-- Embedding of `Streak::calculate_completion_rate` with `f64`
arithmetic carried out exactly in `ℚ` and the ambient `Utc::now()` date
passed as `today`. -/
def Streak.calculate_completion_rate (entries : List HabitEntry)
    (frequency : Frequency) (created_at today : Int) : ℚ :=
  match entries with
  | [] => 0
  | _ =>
    let days_since_creation : Int := (today - created_at) + 1
    let expected : ℚ :=
      match frequency with
      | .Daily => (days_since_creation : ℚ)
      | .Weekly times => ((days_since_creation : ℚ) / 7) * (times : ℚ)
      | .Weekdays => ((days_since_creation : ℚ) / 7) * 5
      | .Weekends => ((days_since_creation : ℚ) / 7) * 2
      | _ => (days_since_creation : ℚ)
    if expected ≤ 0 then 0
    else min ((entries.length : ℚ) / expected) 1

/-- Embedding of `Streak::calculate_from_entries`, the engine's sole
entry point. -/
def Streak.calculate_from_entries (habit_id : Nat) (entries : List HabitEntry)
    (frequency : Frequency) (habit_created_at today : Int) : Streak :=
  if entries.isEmpty then Streak.new habit_id
  else
    let sorted_entries := sortDesc entries
    let total_completions := entries.length
    let last_completed := sorted_entries.head?.map (fun e => e.completed_at)
    let current_streak := Streak.calculate_current_streak sorted_entries frequency today
    let longest_streak := Streak.calculate_longest_streak sorted_entries frequency
    let completion_rate :=
      Streak.calculate_completion_rate sorted_entries frequency habit_created_at today
    { habit_id := habit_id, current_streak := current_streak,
      longest_streak := max longest_streak current_streak,
      last_completed := last_completed,
      total_completions := total_completions,
      completion_rate := completion_rate }

/-- Panic-aware variant of the current-streak computation: `none` marks
the two potential Rust panic sites, the `entries.first().unwrap()` of
the `Interval` branch and the `% 0` remainder when the (invalid)
interval is zero; every other branch is panic-free and agrees with the
total model. -/
def Streak.calculate_current_streak_checked (entries : List HabitEntry)
    (frequency : Frequency) (today : Int) : Option Nat :=
  match entries with
  | [] => some 0
  | _ =>
    match frequency with
    | .Interval n =>
        match entries.head? with
        | none => none
        | some latest =>
            if n = 0 then none
            else
              let days_since_latest := today - latest.completed_at
              let start :=
                if days_since_latest.tmod n == 0 && !hasEntry entries today then
                  today - (n : Int)
                else intervalFindBack entries n today
              some (walkStep entries (n : Int) 365 start 0)
    | f => some (Streak.calculate_current_streak entries f today)

/-- Panic-aware variant of `calculate_from_entries`: propagates the
potential panics of the current-streak computation. -/
def Streak.calculate_from_entries_checked (habit_id : Nat)
    (entries : List HabitEntry) (frequency : Frequency)
    (habit_created_at today : Int) : Option Streak :=
  if entries.isEmpty then some (Streak.new habit_id)
  else
    let sorted_entries := sortDesc entries
    match Streak.calculate_current_streak_checked sorted_entries frequency today with
    | none => none
    | some current_streak =>
        let longest_streak := Streak.calculate_longest_streak sorted_entries frequency
        let completion_rate :=
          Streak.calculate_completion_rate sorted_entries frequency habit_created_at today
        some { habit_id := habit_id, current_streak := current_streak,
               longest_streak := max longest_streak current_streak,
               last_completed := sorted_entries.head?.map (fun e => e.completed_at),
               total_completions := entries.length,
               completion_rate := completion_rate }

/-- Deduplication by completion date, keeping the first entry carrying
each date (the hypothetical upstream uniqueness the spec describes). -/
def dedupByDate (entries : List HabitEntry) : List HabitEntry :=
  go entries []
where
  /-- Worker carrying the dates already seen. -/
  go : List HabitEntry → List Int → List HabitEntry
  | [], _ => []
  | e :: rest, seen =>
      if seen.contains e.completed_at then go rest seen
      else e :: go rest (e.completed_at :: seen)

/-- A block of entries on the `k` consecutive days ending yesterday
(dates `today - k .. today - 1`), the scenario of §4.2's unlogged-today
rule. -/
def entriesRange (today : Int) : Nat → List HabitEntry
  | 0 => []
  | k + 1 => ⟨today - ((k : Int) + 1)⟩ :: entriesRange today k

/-- Modelled from the spec (§4.1): `expected_occurrences(span_days)` as
the spec words it, for comparison with the code's estimator. -/
def expected_occurrences_spec (f : Frequency) (span_days : Int) : ℚ :=
  match f with
  | .Daily => (span_days : ℚ)
  | .Weekly t => ((span_days : ℚ) / 7) * (t : ℚ)
  | .Weekdays => ((span_days : ℚ) / 7) * 5
  | .Weekends => ((span_days : ℚ) / 7) * 2
  | .Custom _ => (span_days : ℚ)
  | .Interval _ => (span_days : ℚ)

/-- Modelled from the spec (§4.4): `min(1, total / expected)` with a
zero rate whenever `expected ≤ 0`. -/
def completion_rate_spec (f : Frequency) (span_days : Int) (total : Nat) : ℚ :=
  let expected := expected_occurrences_spec f span_days
  if expected ≤ 0 then 0 else min 1 ((total : ℚ) / expected)

/-- The largest completion date of the list, when nonempty. -/
def latestDate : List HabitEntry → Option Int
  | [] => none
  | e :: rest =>
      match latestDate rest with
      | none => some e.completed_at
      | some v => some (max e.completed_at v)

section Lemmas

lemma hasEntry_nil (d : Int) : hasEntry [] d = false := rfl

lemma hasEntry_cons (e : HabitEntry) (l : List HabitEntry) (d : Int) :
    hasEntry (e :: l) d = ((e.completed_at == d) || hasEntry l d) := by
  simp [hasEntry]

lemma insertDesc_ne_nil (e : HabitEntry) (l : List HabitEntry) :
    insertDesc e l ≠ [] := by
  cases l with
  | nil => simp [insertDesc]
  | cons x xs =>
      simp only [insertDesc]
      split <;> simp

lemma sortDesc_eq_nil_iff (l : List HabitEntry) : sortDesc l = [] ↔ l = [] := by
  cases l with
  | nil => simp [sortDesc]
  | cons x xs =>
      simp only [sortDesc, List.foldr]
      constructor
      · intro h
        exact absurd h (insertDesc_ne_nil x _)
      · intro h
        exact absurd h (by simp)

lemma insertAsc_ne_nil (e : HabitEntry) (l : List HabitEntry) :
    insertAsc e l ≠ [] := by
  cases l with
  | nil => simp [insertAsc]
  | cons x xs =>
      simp only [insertAsc]
      split <;> simp

lemma sortAsc_eq_nil_iff (l : List HabitEntry) : sortAsc l = [] ↔ l = [] := by
  cases l with
  | nil => simp [sortAsc]
  | cons x xs =>
      simp only [sortAsc, List.foldr]
      constructor
      · intro h
        exact absurd h (insertAsc_ne_nil x _)
      · intro h
        exact absurd h (by simp)

lemma hasEntry_insertDesc (e : HabitEntry) (l : List HabitEntry) (d : Int) :
    hasEntry (insertDesc e l) d = ((e.completed_at == d) || hasEntry l d) := by
  induction l with
  | nil => simp [insertDesc, hasEntry]
  | cons x xs ih =>
      simp only [insertDesc]
      split
      · simp [hasEntry_cons]
      · rw [hasEntry_cons, ih, hasEntry_cons]
        cases h1 : (e.completed_at == d) <;>
          cases h2 : (x.completed_at == d) <;> simp

lemma hasEntry_sortDesc (l : List HabitEntry) (d : Int) :
    hasEntry (sortDesc l) d = hasEntry l d := by
  induction l with
  | nil => rfl
  | cons x xs ih =>
      show hasEntry (insertDesc x (sortDesc xs)) d = _
      rw [hasEntry_insertDesc, ih, hasEntry_cons]

lemma length_insertDesc (e : HabitEntry) (l : List HabitEntry) :
    (insertDesc e l).length = l.length + 1 := by
  induction l with
  | nil => rfl
  | cons x xs ih =>
      simp only [insertDesc]
      split
      · simp
      · simp [ih]

lemma length_sortDesc (l : List HabitEntry) :
    (sortDesc l).length = l.length := by
  induction l with
  | nil => rfl
  | cons x xs ih =>
      show (insertDesc x (sortDesc xs)).length = _
      rw [length_insertDesc, ih]
      rfl

lemma latestDate_eq_none_iff (l : List HabitEntry) :
    latestDate l = none ↔ l = [] := by
  cases l with
  | nil => simp [latestDate]
  | cons e rest =>
      simp only [latestDate]
      cases latestDate rest <;> simp

lemma latestDate_mem (l : List HabitEntry) (v : Int)
    (h : latestDate l = some v) : hasEntry l v = true := by
  induction l generalizing v with
  | nil => simp [latestDate] at h
  | cons e rest ih =>
      simp only [latestDate] at h
      cases hr : latestDate rest with
      | none =>
          rw [hr] at h
          simp at h
          simp [hasEntry_cons, h]
      | some w =>
          rw [hr] at h
          simp at h
          rw [hasEntry_cons]
          rcases max_cases e.completed_at w with ⟨hmax, _⟩ | ⟨hmax, _⟩
          · rw [hmax] at h
            simp [h]
          · rw [hmax] at h
            subst h
            simp [ih w hr]

lemma latestDate_ub (l : List HabitEntry) (v : Int)
    (h : latestDate l = some v) :
    ∀ d : Int, hasEntry l d = true → d ≤ v := by
  induction l generalizing v with
  | nil => simp [hasEntry] at *
  | cons e rest ih =>
      intro d hd
      rw [hasEntry_cons] at hd
      simp only [latestDate] at h
      cases hr : latestDate rest with
      | none =>
          rw [hr] at h
          simp at h
          have : rest = [] := (latestDate_eq_none_iff rest).mp hr
          subst this
          simp [hasEntry] at hd
          omega
      | some w =>
          rw [hr] at h
          simp at h
          rcases Bool.or_eq_true_iff.mp hd with h1 | h2
          · have he : e.completed_at = d := beq_iff_eq.mp h1
            have hle := le_max_left e.completed_at w
            omega
          · have hw := ih w hr d h2
            have hle := le_max_right e.completed_at w
            omega

lemma latestDate_isSome (l : List HabitEntry) (h : l ≠ []) :
    ∃ v, latestDate l = some v := by
  cases hl : latestDate l with
  | none => exact absurd ((latestDate_eq_none_iff l).mp hl) h
  | some v => exact ⟨v, rfl⟩

lemma latestDate_congr (l₁ l₂ : List HabitEntry)
    (hne : l₁ ≠ []) (hne2 : l₂ ≠ [])
    (hmem : ∀ d : Int, hasEntry l₁ d = hasEntry l₂ d) :
    latestDate l₁ = latestDate l₂ := by
  obtain ⟨v₁, h₁⟩ := latestDate_isSome l₁ hne
  obtain ⟨v₂, h₂⟩ := latestDate_isSome l₂ hne2
  rw [h₁, h₂]
  have m₁ : hasEntry l₂ v₁ = true := (hmem v₁) ▸ latestDate_mem l₁ v₁ h₁
  have m₂ : hasEntry l₁ v₂ = true := (hmem v₂) ▸ latestDate_mem l₂ v₂ h₂
  have le₁ : v₁ ≤ v₂ := latestDate_ub l₂ v₂ h₂ v₁ m₁
  have le₂ : v₂ ≤ v₁ := latestDate_ub l₁ v₁ h₁ v₂ m₂
  exact congrArg some (le_antisymm le₁ le₂)

lemma sortDesc_headDate (l : List HabitEntry) :
    (sortDesc l).head?.map (fun e => e.completed_at) = latestDate l := by
  induction l with
  | nil => rfl
  | cons a l ih =>
      show (insertDesc a (sortDesc l)).head?.map (fun e => e.completed_at)
        = latestDate (a :: l)
      cases hs : sortDesc l with
      | nil =>
          have : l = [] := (sortDesc_eq_nil_iff l).mp hs
          subst this
          simp [insertDesc, latestDate]
      | cons x xs =>
          rw [hs] at ih
          simp only [latestDate]
          cases hl : latestDate l with
          | none =>
              rw [hl] at ih
              simp at ih
          | some v =>
              rw [hl] at ih
              simp at ih
              simp only [insertDesc]
              split
              · next hle =>
                  have hv : v ≤ a.completed_at := by omega
                  simp [max_eq_left hv]
              · next hle =>
                  have hv : a.completed_at ≤ v := by omega
                  simp [max_eq_right hv, ih]

lemma hasEntry_dedupGo (l : List HabitEntry) :
    ∀ (seen : List Int) (d : Int),
      hasEntry (dedupByDate.go l seen) d
        = (hasEntry l d && !(seen.contains d)) := by
  induction l with
  | nil => intro seen d; simp [dedupByDate.go, hasEntry]
  | cons e rest ih =>
      intro seen d
      simp only [dedupByDate.go]
      split
      · next hcon =>
          rw [ih seen d, hasEntry_cons]
          by_cases heq : e.completed_at = d
          · subst heq
            have hmem : e.completed_at ∈ seen := by simpa using hcon
            simp [hmem]
          · have hb : (e.completed_at == d) = false := beq_eq_false_iff_ne.mpr heq
            simp [hb]
      · next hcon =>
          rw [hasEntry_cons, hasEntry_cons, ih (e.completed_at :: seen) d]
          by_cases heq : e.completed_at = d
          · subst heq
            simp at hcon
            simp [hcon]
          · have hb : (e.completed_at == d) = false := beq_eq_false_iff_ne.mpr heq
            have hsym : d ≠ e.completed_at := fun hh => heq hh.symm
            simp [hb, hsym]

lemma hasEntry_dedupByDate (l : List HabitEntry) (d : Int) :
    hasEntry (dedupByDate l) d = hasEntry l d := by
  rw [dedupByDate, hasEntry_dedupGo]
  simp

lemma dedupByDate_eq_nil_iff (l : List HabitEntry) :
    dedupByDate l = [] ↔ l = [] := by
  cases l with
  | nil => simp [dedupByDate, dedupByDate.go]
  | cons e rest => simp [dedupByDate, dedupByDate.go]

lemma walkStep_congr (es₁ es₂ : List HabitEntry) (step : Int)
    (hmem : ∀ d : Int, hasEntry es₁ d = hasEntry es₂ d) :
    ∀ (fuel : Nat) (d : Int) (acc : Nat),
      walkStep es₁ step fuel d acc = walkStep es₂ step fuel d acc := by
  intro fuel
  induction fuel with
  | zero => intro d acc; rfl
  | succ f ih =>
      intro d acc
      simp only [walkStep, hmem d]
      split
      · exact ih _ _
      · rfl

lemma walkSkip_congr (skip : Int → Bool) (es₁ es₂ : List HabitEntry)
    (hmem : ∀ d : Int, hasEntry es₁ d = hasEntry es₂ d) :
    ∀ (fuel : Nat) (d : Int) (acc : Nat),
      walkSkip skip es₁ fuel d acc = walkSkip skip es₂ fuel d acc := by
  intro fuel
  induction fuel with
  | zero => intro d acc; rfl
  | succ f ih =>
      intro d acc
      simp only [walkSkip, hmem d]
      split
      · exact ih _ _
      · split
        · exact ih _ _
        · rfl

lemma intervalFindBack_congr (es₁ es₂ : List HabitEntry)
    (hmem : ∀ d : Int, hasEntry es₁ d = hasEntry es₂ d) :
    ∀ (fuel : Nat) (d : Int),
      intervalFindBack es₁ fuel d = intervalFindBack es₂ fuel d := by
  intro fuel
  induction fuel with
  | zero => intro d; rfl
  | succ f ih =>
      intro d
      simp only [intervalFindBack, hmem d]
      split
      · rfl
      · exact ih _

lemma calc_current_nil (f : Frequency) (today : Int) :
    Streak.calculate_current_streak [] f today = 0 := rfl

lemma calc_current_daily (latest : HabitEntry) (rest : List HabitEntry)
    (today : Int) :
    Streak.calculate_current_streak (latest :: rest) .Daily today
      = walkStep (latest :: rest) 1 365
          (if hasEntry (latest :: rest) today then today else today - 1) 0 := rfl

lemma calc_current_weekly (latest : HabitEntry) (rest : List HabitEntry)
    (t : Nat) (today : Int) :
    Streak.calculate_current_streak (latest :: rest) (.Weekly t) today
      = weeklyCurrentRun (latest :: rest) t 52 (today - dowFromMonday today) := rfl

lemma calc_current_weekdays (latest : HabitEntry) (rest : List HabitEntry)
    (today : Int) :
    Streak.calculate_current_streak (latest :: rest) .Weekdays today
      = walkSkip isWeekend (latest :: rest) 365
          (if !isWeekend today && !hasEntry (latest :: rest) today then
             backToWeekday 7
               ((if isWeekend today then backToWeekday 7 today else today) - 1)
           else if isWeekend today then backToWeekday 7 today else today) 0 := rfl

lemma calc_current_weekends (latest : HabitEntry) (rest : List HabitEntry)
    (today : Int) :
    Streak.calculate_current_streak (latest :: rest) .Weekends today
      = walkSkip (fun d => !isWeekend d) (latest :: rest) 365
          (if isWeekend today && !hasEntry (latest :: rest) today then
             backToWeekend 7
               ((if !isWeekend today then backToWeekend 7 today else today) - 1)
           else if !isWeekend today then backToWeekend 7 today else today) 0 := rfl

lemma calc_current_custom (latest : HabitEntry) (rest : List HabitEntry)
    (ws : List Weekday) (today : Int) :
    Streak.calculate_current_streak (latest :: rest) (.Custom ws) today
      = walkSkip (fun d => !(ws.contains (weekdayOf d))) (latest :: rest) 365
          (if ws.contains (weekdayOf today) && !hasEntry (latest :: rest) today then
             customFindBackPost ws 7
               ((if !(ws.contains (weekdayOf today)) then
                   customFindBackPre ws 7 today
                 else today) - 1)
           else if !(ws.contains (weekdayOf today)) then
             customFindBackPre ws 7 today
           else today) 0 := rfl

lemma calc_current_interval (latest : HabitEntry) (rest : List HabitEntry)
    (n : Nat) (today : Int) :
    Streak.calculate_current_streak (latest :: rest) (.Interval n) today
      = walkStep (latest :: rest) (n : Int) 365
          (if (today - latest.completed_at).tmod n == 0
              && !hasEntry (latest :: rest) today then
             today - (n : Int)
           else intervalFindBack (latest :: rest) n today) 0 := rfl

lemma from_entries_nil (hid : Nat) (f : Frequency) (c t : Int) :
    Streak.calculate_from_entries hid [] f c t = Streak.new hid := rfl

lemma from_entries_current (hid : Nat) (e : HabitEntry) (rest : List HabitEntry)
    (f : Frequency) (c t : Int) :
    (Streak.calculate_from_entries hid (e :: rest) f c t).current_streak
      = Streak.calculate_current_streak (sortDesc (e :: rest)) f t := rfl

lemma from_entries_longest (hid : Nat) (e : HabitEntry) (rest : List HabitEntry)
    (f : Frequency) (c t : Int) :
    (Streak.calculate_from_entries hid (e :: rest) f c t).longest_streak
      = max (Streak.calculate_longest_streak (sortDesc (e :: rest)) f)
          (Streak.calculate_current_streak (sortDesc (e :: rest)) f t) := rfl

lemma from_entries_rate (hid : Nat) (e : HabitEntry) (rest : List HabitEntry)
    (f : Frequency) (c t : Int) :
    (Streak.calculate_from_entries hid (e :: rest) f c t).completion_rate
      = Streak.calculate_completion_rate (sortDesc (e :: rest)) f c t := rfl

lemma calc_current_congr (es₁ es₂ : List HabitEntry) (f : Frequency)
    (today : Int) (hW : ∀ u, f ≠ .Weekly u)
    (hmem : ∀ d : Int, hasEntry es₁ d = hasEntry es₂ d)
    (hhead : es₁.head?.map (fun e => e.completed_at)
      = es₂.head?.map (fun e => e.completed_at)) :
    Streak.calculate_current_streak es₁ f today
      = Streak.calculate_current_streak es₂ f today := by
  cases es₁ with
  | nil =>
      cases es₂ with
      | nil => rfl
      | cons b bs => simp at hhead
  | cons a as =>
      cases es₂ with
      | nil => simp at hhead
      | cons b bs =>
          have hab : a.completed_at = b.completed_at := by simpa using hhead
          cases f with
          | Daily =>
              rw [calc_current_daily, calc_current_daily, hmem today]
              exact walkStep_congr _ _ _ hmem _ _ _
          | Weekly u => exact absurd rfl (hW u)
          | Weekdays =>
              rw [calc_current_weekdays, calc_current_weekdays, hmem today]
              exact walkSkip_congr _ _ _ hmem _ _ _
          | Weekends =>
              rw [calc_current_weekends, calc_current_weekends, hmem today]
              exact walkSkip_congr _ _ _ hmem _ _ _
          | Custom ws =>
              rw [calc_current_custom, calc_current_custom, hmem today]
              exact walkSkip_congr _ _ _ hmem _ _ _
          | Interval n =>
              rw [calc_current_interval, calc_current_interval, hmem today, hab,
                intervalFindBack_congr _ _ hmem n today]
              exact walkStep_congr _ _ _ hmem _ _ _

lemma sortDesc_dedup_head (es : List HabitEntry) (hes : es ≠ []) :
    (sortDesc (dedupByDate es)).head?.map (fun e => e.completed_at)
      = (sortDesc es).head?.map (fun e => e.completed_at) := by
  rw [sortDesc_headDate, sortDesc_headDate]
  exact latestDate_congr _ _
    (fun h => hes ((dedupByDate_eq_nil_iff es).mp h)) hes
    (fun d => hasEntry_dedupByDate es d)

lemma from_entries_current_dedup (hid : Nat) (es : List HabitEntry)
    (f : Frequency) (c t : Int) (hW : ∀ u, f ≠ .Weekly u) :
    (Streak.calculate_from_entries hid (dedupByDate es) f c t).current_streak
      = (Streak.calculate_from_entries hid es f c t).current_streak := by
  cases es with
  | nil => rfl
  | cons e rest =>
      have hdd : dedupByDate (e :: rest)
        = e :: dedupByDate.go rest [e.completed_at] := rfl
      rw [hdd, from_entries_current, from_entries_current, ← hdd]
      apply calc_current_congr _ _ f t hW
      · intro d
        rw [hasEntry_sortDesc, hasEntry_sortDesc, hasEntry_dedupByDate]
      · exact sortDesc_dedup_head (e :: rest) (by simp)

lemma longestRun_pos (next : Int → Int) :
    ∀ (l : List HabitEntry) (last : Int) (longest cur : Nat),
      1 ≤ cur → 1 ≤ longestRun next l last longest cur := by
  intro l
  induction l with
  | nil =>
      intro last longest cur h
      simp only [longestRun]
      omega
  | cons e rest ih =>
      intro last longest cur h
      simp only [longestRun]
      split
      · exact ih _ _ _ (by omega)
      · exact ih _ _ _ (by omega)

lemma calc_longest_pos (es : List HabitEntry) (f : Frequency)
    (hes : es ≠ []) (hW : ∀ u, f ≠ .Weekly u) :
    1 ≤ Streak.calculate_longest_streak es f := by
  cases hs : sortAsc es with
  | nil => exact absurd ((sortAsc_eq_nil_iff es).mp hs) hes
  | cons e0 rest =>
      cases f with
      | Daily =>
          simp only [Streak.calculate_longest_streak, hs]
          exact longestRun_pos _ _ _ _ _ le_rfl
      | Weekly u => exact absurd rfl (hW u)
      | Weekdays =>
          simp only [Streak.calculate_longest_streak, hs]
          exact longestRun_pos _ _ _ _ _ le_rfl
      | Weekends =>
          simp only [Streak.calculate_longest_streak, hs]
          exact longestRun_pos _ _ _ _ _ le_rfl
      | Custom ws =>
          simp only [Streak.calculate_longest_streak, hs]
          exact longestRun_pos _ _ _ _ _ le_rfl
      | Interval n =>
          simp only [Streak.calculate_longest_streak, hs]
          exact longestRun_pos _ _ _ _ _ le_rfl

lemma from_entries_longest_pos (hid : Nat) (es : List HabitEntry)
    (f : Frequency) (c t : Int) (hes : es ≠ []) (hW : ∀ u, f ≠ .Weekly u) :
    1 ≤ (Streak.calculate_from_entries hid es f c t).longest_streak := by
  cases es with
  | nil => exact absurd rfl hes
  | cons e rest =>
      rw [from_entries_longest]
      have h1 : 1 ≤ Streak.calculate_longest_streak (sortDesc (e :: rest)) f := by
        apply calc_longest_pos _ _ _ hW
        intro h
        exact absurd ((sortDesc_eq_nil_iff _).mp h) (by simp)
      omega

lemma from_entries_checked_eq (hid : Nat) (es : List HabitEntry)
    (f : Frequency) (c t : Int) (hv : f.validate = .ok ()) :
    Streak.calculate_from_entries_checked hid es f c t
      = some (Streak.calculate_from_entries hid es f c t) := by
  cases es with
  | nil => rfl
  | cons e rest =>
      have hcur : Streak.calculate_current_streak_checked (sortDesc (e :: rest)) f t
          = some (Streak.calculate_current_streak (sortDesc (e :: rest)) f t) := by
        cases hs : sortDesc (e :: rest) with
        | nil => exact absurd ((sortDesc_eq_nil_iff _).mp hs) (by simp)
        | cons a as =>
            cases f with
            | Daily => rfl
            | Weekly u => rfl
            | Weekdays => rfl
            | Weekends => rfl
            | Custom ws => rfl
            | Interval n =>
                have hn : ¬(n = 0) := by
                  intro h
                  subst h
                  simp [Frequency.validate] at hv
                simp only [Streak.calculate_current_streak_checked, List.head?,
                  calc_current_interval, if_neg hn]
      show (match Streak.calculate_current_streak_checked
              (sortDesc (e :: rest)) f t with
            | none => none
            | some current_streak => _) = _
      rw [hcur]
      rfl

lemma hasEntry_entriesRange (today : Int) :
    ∀ (k : Nat) (x : Int),
      hasEntry (entriesRange today k) x = true
        ↔ (today - (k : Int) ≤ x ∧ x ≤ today - 1) := by
  intro k
  induction k with
  | zero =>
      intro x
      simp [entriesRange, hasEntry]
      omega
  | succ k ih =>
      intro x
      simp only [entriesRange, hasEntry_cons, Bool.or_eq_true, beq_iff_eq, ih x]
      push_cast
      omega

lemma walkStep_count (es : List HabitEntry) :
    ∀ (k fuel : Nat) (d : Int) (acc : Nat),
      k ≤ fuel →
      (∀ x : Int, x ≤ d → (hasEntry es x = true ↔ d - (k : Int) + 1 ≤ x)) →
      walkStep es 1 fuel d acc = acc + k := by
  intro k
  induction k with
  | zero =>
      intro fuel d acc hf hc
      have hd : hasEntry es d = false := by
        cases he : hasEntry es d with
        | false => rfl
        | true =>
            have := (hc d le_rfl).mp he
            omega
      cases fuel with
      | zero => rfl
      | succ f => simp [walkStep, hd]
  | succ k ih =>
      intro fuel d acc hf hc
      cases fuel with
      | zero => omega
      | succ f =>
          have hd : hasEntry es d = true := by
            rw [hc d le_rfl]
            push_cast
            omega
          simp only [walkStep, hd, if_true]
          rw [ih f (d - 1) (acc + 1) (by omega) ?bound]
          · omega
          case bound =>
            intro x hx
            rw [hc x (by omega)]
            push_cast
            omega

lemma rate_bounds (es : List HabitEntry) (f : Frequency) (c t : Int) :
    0 ≤ Streak.calculate_completion_rate es f c t
      ∧ Streak.calculate_completion_rate es f c t ≤ 1 := by
  cases es with
  | nil => simp [Streak.calculate_completion_rate]
  | cons e rest =>
      simp only [Streak.calculate_completion_rate]
      split
      · next h => norm_num
      · next h =>
          push_neg at h
          constructor
          · refine le_min ?_ zero_le_one
            exact div_nonneg (by positivity) (le_of_lt h)
          · exact min_le_right _ 1

lemma rate_spec_eq (es : List HabitEntry) (f : Frequency) (c t : Int)
    (hes : es ≠ []) :
    Streak.calculate_completion_rate es f c t
      = completion_rate_spec f (t - c + 1) es.length := by
  cases es with
  | nil => exact absurd rfl hes
  | cons e rest =>
      cases f <;>
        · simp only [Streak.calculate_completion_rate, completion_rate_spec,
            expected_occurrences_spec]
          split
          · rfl
          · exact min_comm _ _

lemma current_daily_range (hid : Nat) (c today : Int) (k : Nat)
    (hk : k ≤ 365) :
    (Streak.calculate_from_entries hid (entriesRange today k)
        .Daily c today).current_streak = k := by
  cases k with
  | zero => rfl
  | succ m =>
      have hcons : entriesRange today (m + 1)
          = ⟨today - ((m : Int) + 1)⟩ :: entriesRange today m := rfl
      rw [hcons, from_entries_current, ← hcons]
      cases hs : sortDesc (entriesRange today (m + 1)) with
      | nil =>
          rw [hcons] at hs
          exact absurd ((sortDesc_eq_nil_iff _).mp hs) (by simp)
      | cons a as =>
          rw [← hs]
          have hmem : ∀ d : Int,
              hasEntry (sortDesc (entriesRange today (m + 1))) d
                = hasEntry (entriesRange today (m + 1)) d :=
            fun d => hasEntry_sortDesc _ d
          have hno : hasEntry (sortDesc (entriesRange today (m + 1))) today
              = false := by
            rw [hmem]
            cases he : hasEntry (entriesRange today (m + 1)) today with
            | false => rfl
            | true =>
                have := (hasEntry_entriesRange today (m + 1) today).mp he
                omega
          rw [hs, calc_current_daily, ← hs, hno]
          simp only [Bool.false_eq_true, if_false]
          rw [walkStep_count _ (m + 1) 365 (today - 1) 0 (by omega) ?bound]
          · omega
          case bound =>
            intro x hx
            rw [hmem, hasEntry_entriesRange]
            push_cast
            omega

end Lemmas

/-- Claim C1: the spec demands that, for `Weekly` frequencies, a
qualifying ISO week 52 of year Y and a qualifying week 1 of year Y+1 be
treated as consecutive by the longest-streak computation.  The code
violates this: with one entry in ISO week 52 of 2025 (2025-12-22) and
one in ISO week 1 of 2026 (2026-01-01), both weeks qualify under
`Weekly 1`, yet `calculate_longest_streak` returns 1, not 2 — the
year-boundary heuristic `week_key > last + 50 && week_key < last + 60`
misses the actual key difference of 49 (202552 → 202601), contradicting
the source's own comment "Handle year boundary (week 52/53 -> week 1)". -/
theorem claim_C1_weekly_year_boundary :
    isoWeekNumber (days_from_civil 2025 12 22) = 52
    ∧ yearOf (days_from_civil 2025 12 22) = 2025
    ∧ isoWeekNumber (days_from_civil 2026 1 1) = 1
    ∧ yearOf (days_from_civil 2026 1 1) = 2026
    ∧ Streak.calculate_longest_streak
        [⟨days_from_civil 2025 12 22⟩, ⟨days_from_civil 2026 1 1⟩]
        (.Weekly 1) = 1 := by
  decide

/-- Claim C2: for every frequency, entry list and creation date, the
result of `calculate_from_entries` satisfies
`current_streak ≤ longest_streak`. -/
theorem claim_C2_longest_ge_current :
    ∀ (hid : Nat) (es : List HabitEntry) (f : Frequency) (c t : Int),
      (Streak.calculate_from_entries hid es f c t).current_streak
        ≤ (Streak.calculate_from_entries hid es f c t).longest_streak := by
  intro hid es f c t
  cases es with
  | nil => simp [from_entries_nil, Streak.new]
  | cons e rest =>
      rw [from_entries_longest, from_entries_current]
      exact le_max_right _ _

/-- Claim C3: for every frequency, entry list and creation date, the
`completion_rate` field of the result lies in `[0, 1]`; in particular it
never exceeds 1. -/
theorem claim_C3_rate_in_unit_interval :
    ∀ (hid : Nat) (es : List HabitEntry) (f : Frequency) (c t : Int),
      0 ≤ (Streak.calculate_from_entries hid es f c t).completion_rate
        ∧ (Streak.calculate_from_entries hid es f c t).completion_rate ≤ 1 := by
  intro hid es f c t
  cases es with
  | nil => constructor <;> simp [from_entries_nil, Streak.new]
  | cons e rest =>
      constructor
      · rw [from_entries_rate]
        exact (rate_bounds _ _ _ _).1
      · rw [from_entries_rate]
        exact (rate_bounds _ _ _ _).2

/-- Claim C4: for every frequency and creation date,
`calculate_from_entries` on an empty entry list returns the all-zero
record with `last_completed` absent. -/
theorem claim_C4_empty_entries :
    ∀ (hid : Nat) (f : Frequency) (c t : Int),
      Streak.calculate_from_entries hid [] f c t
        = { habit_id := hid, current_streak := 0, longest_streak := 0,
            last_completed := none, total_completions := 0,
            completion_rate := 0 } := by
  intro hid f c t
  rfl

/-- Claim C5, counterexample: same-date duplicate entries are NOT always
treated as a single qualifying occasion.  Under `Weekly 2`, two entries
on the same Monday make that week qualify (`current_streak = 1`) while
the deduplicated list does not (`current_streak = 0`); and under
`Daily`, duplicates inside a run reset it so `longest_streak` drops from
3 to 2 relative to the deduplicated list. -/
theorem claim_C5_counterexample :
    dedupByDate [⟨20241⟩, ⟨20241⟩] = [⟨20241⟩]
    ∧ (Streak.calculate_from_entries 0 [⟨20241⟩, ⟨20241⟩]
        (.Weekly 2) 20241 20241).current_streak = 1
    ∧ (Streak.calculate_from_entries 0 (dedupByDate [⟨20241⟩, ⟨20241⟩])
        (.Weekly 2) 20241 20241).current_streak = 0
    ∧ (Streak.calculate_from_entries 0 [⟨0⟩, ⟨1⟩, ⟨1⟩, ⟨2⟩]
        .Daily 0 20000).longest_streak = 2
    ∧ (Streak.calculate_from_entries 0 (dedupByDate [⟨0⟩, ⟨1⟩, ⟨1⟩, ⟨2⟩])
        .Daily 0 20000).longest_streak = 3 := by
  decide

/-- Claim C5, amended: for the day-based frequencies (`Daily`,
`Weekdays`, `Weekends`, `Custom`, `Interval`) the `current_streak` field
is unchanged when the entry list is replaced by its deduplication by
completion date; the `Weekly` current streak and the longest streaks do
not enjoy this invariance (see the counterexample). -/
theorem claim_C5_dedup_current_nonweekly :
    (∀ (hid : Nat) (es : List HabitEntry) (c t : Int),
        (Streak.calculate_from_entries hid (dedupByDate es) .Daily c t).current_streak
          = (Streak.calculate_from_entries hid es .Daily c t).current_streak)
    ∧ (∀ (hid : Nat) (es : List HabitEntry) (c t : Int),
        (Streak.calculate_from_entries hid (dedupByDate es) .Weekdays c t).current_streak
          = (Streak.calculate_from_entries hid es .Weekdays c t).current_streak)
    ∧ (∀ (hid : Nat) (es : List HabitEntry) (c t : Int),
        (Streak.calculate_from_entries hid (dedupByDate es) .Weekends c t).current_streak
          = (Streak.calculate_from_entries hid es .Weekends c t).current_streak)
    ∧ (∀ (hid : Nat) (ws : List Weekday) (es : List HabitEntry) (c t : Int),
        (Streak.calculate_from_entries hid (dedupByDate es) (.Custom ws) c t).current_streak
          = (Streak.calculate_from_entries hid es (.Custom ws) c t).current_streak)
    ∧ (∀ (hid : Nat) (n : Nat) (es : List HabitEntry) (c t : Int),
        (Streak.calculate_from_entries hid (dedupByDate es) (.Interval n) c t).current_streak
          = (Streak.calculate_from_entries hid es (.Interval n) c t).current_streak) := by
  refine ⟨?_, ?_, ?_, ?_, ?_⟩
  · intro hid es c t
    exact from_entries_current_dedup hid es _ c t (fun u h => Frequency.noConfusion h)
  · intro hid es c t
    exact from_entries_current_dedup hid es _ c t (fun u h => Frequency.noConfusion h)
  · intro hid es c t
    exact from_entries_current_dedup hid es _ c t (fun u h => Frequency.noConfusion h)
  · intro hid ws es c t
    exact from_entries_current_dedup hid es _ c t (fun u h => Frequency.noConfusion h)
  · intro hid n es c t
    exact from_entries_current_dedup hid es _ c t (fun u h => Frequency.noConfusion h)

/-- Claim C6: for every non-empty entry list, frequency and creation
date not after today, the completion rate equals the spec's
`min(1, total / expected)` over the inclusive span `today - created + 1`
(with the daily-equivalent fallback for `Custom` and `Interval`), and is
0 whenever the expected count is non-positive — the spec-side formula
`completion_rate_spec` coincides with the code's estimator. -/
theorem claim_C6_rate_formula :
    ∀ (hid : Nat) (es : List HabitEntry) (f : Frequency) (c t : Int),
      es ≠ [] → c ≤ t →
      (Streak.calculate_from_entries hid es f c t).completion_rate
        = completion_rate_spec f (t - c + 1) es.length := by
  intro hid es f c t hes hct
  cases es with
  | nil => exact absurd rfl hes
  | cons e rest =>
      rw [from_entries_rate,
        rate_spec_eq _ _ _ _
          (fun h => absurd ((sortDesc_eq_nil_iff _).mp h) (by simp)),
        length_sortDesc]

/-- Claim C6 witness: a concrete instantiation of the rate formula. -/
theorem claim_C6_rate_formula_witness :
    ([⟨5⟩] : List HabitEntry) ≠ [] ∧ (0 : Int) ≤ 9
    ∧ (Streak.calculate_from_entries 0 [⟨5⟩] .Daily 0 9).completion_rate
      = completion_rate_spec .Daily (9 - 0 + 1) ([⟨5⟩] : List HabitEntry).length :=
  ⟨by decide, by decide, claim_C6_rate_formula 0 [⟨5⟩] .Daily 0 9 (by decide) (by decide)⟩

/-- Claim C7, counterexample: under `Weekly` the claimed rule fails, so
"for every frequency" is false.  Every day qualifies under `Weekly`
(`is_scheduled_for_date` is constantly true), yet with `Weekly 1`, today
the Monday 20241 (2025-06-02) and the sole entry on the previous
Wednesday 20236, the unlogged today yields `current_streak = 0` — the
current Monday-aligned window `[today, today+6]` holds no entry and the
scan stops at once — while the same history with today logged yields 2:
an unlogged today does, by itself, break a `Weekly` streak in
progress. -/
theorem claim_C7_counterexample :
    dowFromMonday 20241 = 0
    ∧ hasEntry [⟨20236⟩] 20241 = false
    ∧ (Streak.calculate_from_entries 0 [⟨20236⟩]
        (.Weekly 1) 20236 20241).current_streak = 0
    ∧ (Streak.calculate_from_entries 0 [⟨20241⟩, ⟨20236⟩]
        (.Weekly 1) 20236 20241).current_streak = 2 := by
  decide

/-- Claim C7, amended: for the frequencies with a per-day notion of
qualifying day (`Daily`, `Weekdays`, `Weekends`, `Custom`, `Interval`)
an unlogged "today" does not itself break a streak in progress; `Weekly`
is excluded (see the counterexample).  Conjunct 1 is the spec's own
example made universal: under `Daily`, entries on exactly the `k ≤ 365`
consecutive days ending yesterday and no entry today give
`current_streak = k`.  The remaining conjuncts show, for each day-based
frequency, that when today qualifies but carries no entry the backward
walk starts at the previous qualifying day instead of today. -/
theorem claim_C7_unlogged_today :
    (∀ (hid : Nat) (c today : Int) (k : Nat), k ≤ 365 →
        (Streak.calculate_from_entries hid (entriesRange today k)
          .Daily c today).current_streak = k)
    ∧ (∀ (e : HabitEntry) (rest : List HabitEntry) (today : Int),
        hasEntry (e :: rest) today = false →
        Streak.calculate_current_streak (e :: rest) .Daily today
          = walkStep (e :: rest) 1 365 (today - 1) 0)
    ∧ (∀ (e : HabitEntry) (rest : List HabitEntry) (today : Int),
        isWeekend today = false → hasEntry (e :: rest) today = false →
        Streak.calculate_current_streak (e :: rest) .Weekdays today
          = walkSkip isWeekend (e :: rest) 365 (backToWeekday 7 (today - 1)) 0)
    ∧ (∀ (e : HabitEntry) (rest : List HabitEntry) (today : Int),
        isWeekend today = true → hasEntry (e :: rest) today = false →
        Streak.calculate_current_streak (e :: rest) .Weekends today
          = walkSkip (fun d => !isWeekend d) (e :: rest) 365
              (backToWeekend 7 (today - 1)) 0)
    ∧ (∀ (ws : List Weekday) (e : HabitEntry) (rest : List HabitEntry)
          (today : Int),
        ws.contains (weekdayOf today) = true →
        hasEntry (e :: rest) today = false →
        Streak.calculate_current_streak (e :: rest) (.Custom ws) today
          = walkSkip (fun d => !(ws.contains (weekdayOf d))) (e :: rest) 365
              (customFindBackPost ws 7 (today - 1)) 0)
    ∧ (∀ (n : Nat) (latest : HabitEntry) (rest : List HabitEntry) (today : Int),
        (today - latest.completed_at).tmod (n : Int) = 0 →
        hasEntry (latest :: rest) today = false →
        Streak.calculate_current_streak (latest :: rest) (.Interval n) today
          = walkStep (latest :: rest) (n : Int) 365 (today - (n : Int)) 0) := by
  refine ⟨?_, ?_, ?_, ?_, ?_, ?_⟩
  · intro hid c today k hk
    exact current_daily_range hid c today k hk
  · intro e rest today hE
    rw [calc_current_daily, hE]
    simp
  · intro e rest today hw hE
    rw [calc_current_weekdays]
    simp [hw, hE]
  · intro e rest today hw hE
    rw [calc_current_weekends]
    simp [hw, hE]
  · intro ws e rest today hw hE
    rw [calc_current_custom]
    have hmem : weekdayOf today ∈ ws := by simpa using hw
    simp [hw, hE, hmem]
  · intro n latest rest today hmod hE
    rw [calc_current_interval, hmod, hE]
    simp

/-- Claim C7 witness: three entries on the three days before day 100 and
nothing on day 100 give a current streak of 3. -/
theorem claim_C7_unlogged_today_witness :
    3 ≤ 365
    ∧ (Streak.calculate_from_entries 0 (entriesRange 100 3)
        .Daily 0 100).current_streak = 3 :=
  ⟨by decide, claim_C7_unlogged_today.1 0 0 100 3 (by decide)⟩

/-- Claim C8: `Frequency::validate` returns an error exactly for
`Weekly` targets outside 1–7, empty or over-long `Custom` day lists,
and `Interval` lengths outside 1–365; `Daily`, `Weekdays` and
`Weekends` always validate. -/
theorem claim_C8_validate_iff :
    ∀ f : Frequency,
      ((∃ e, f.validate = .error e) ↔
        ((∃ u, f = .Weekly u ∧ (u = 0 ∨ 7 < u))
          ∨ (∃ ds, f = .Custom ds ∧ (ds = [] ∨ 7 < ds.length))
          ∨ (∃ n, f = .Interval n ∧ (n = 0 ∨ 365 < n))))
      ∧ Frequency.Daily.validate = .ok ()
      ∧ Frequency.Weekdays.validate = .ok ()
      ∧ Frequency.Weekends.validate = .ok () := by
  intro f
  refine ⟨?_, rfl, rfl, rfl⟩
  cases f with
  | Daily => simp [Frequency.validate]
  | Weekly u =>
      by_cases hc : u = 0 ∨ 7 < u
      · simp [Frequency.validate, hc]
      · simp [Frequency.validate, hc]
  | Weekdays => simp [Frequency.validate]
  | Weekends => simp [Frequency.validate]
  | Custom ds =>
      by_cases he : ds = []
      · subst he
        simp [Frequency.validate]
      · by_cases hl : 7 < ds.length
        · simp [Frequency.validate, he, hl]
        · simp [Frequency.validate, he, hl]
  | Interval n =>
      by_cases h0 : n = 0
      · subst h0
        simp [Frequency.validate]
      · by_cases hl : 365 < n
        · simp [Frequency.validate, h0, hl]
        · simp [Frequency.validate, h0, hl]

/-- Claim C9: for every validated frequency, entry list (including the
empty list) and creation date, the panic-aware model of the engine
returns `some` result equal to the total model — the `unwrap` in the
`Interval` branch is unreachable (the empty case returns early) and
every bounded walk terminates, so the engine is total and panic-free. -/
theorem claim_C9_total_no_panic :
    ∀ (hid : Nat) (es : List HabitEntry) (f : Frequency) (c t : Int),
      f.validate = .ok () →
      Streak.calculate_from_entries_checked hid es f c t
        = some (Streak.calculate_from_entries hid es f c t) := by
  intro hid es f c t hv
  exact from_entries_checked_eq hid es f c t hv

/-- Claim C9 witness: a concrete validated `Interval` habit with a
non-empty entry list. -/
theorem claim_C9_total_no_panic_witness :
    (Frequency.Interval 3).validate = .ok ()
    ∧ Streak.calculate_from_entries_checked 0 [⟨0⟩] (.Interval 3) 0 5
      = some (Streak.calculate_from_entries 0 [⟨0⟩] (.Interval 3) 0 5) :=
  ⟨rfl, claim_C9_total_no_panic 0 [⟨0⟩] (.Interval 3) 0 5 rfl⟩

/-- Claim C10: for every non-empty entry list under `Daily`, `Weekdays`,
`Weekends`, `Custom` or `Interval`, the reported `longest_streak` is at
least 1 (each of those branches starts its running streak at 1, whatever
the entry dates), whereas under `Weekly` a non-empty entry list can
yield `longest_streak = 0` when no ISO-week bucket reaches the target:
a lone entry has bucket count 1 < 2. -/
theorem claim_C10_longest_pos_nonweekly :
    (∀ (hid : Nat) (es : List HabitEntry) (c t : Int), es ≠ [] →
        1 ≤ (Streak.calculate_from_entries hid es .Daily c t).longest_streak)
    ∧ (∀ (hid : Nat) (es : List HabitEntry) (c t : Int), es ≠ [] →
        1 ≤ (Streak.calculate_from_entries hid es .Weekdays c t).longest_streak)
    ∧ (∀ (hid : Nat) (es : List HabitEntry) (c t : Int), es ≠ [] →
        1 ≤ (Streak.calculate_from_entries hid es .Weekends c t).longest_streak)
    ∧ (∀ (hid : Nat) (ws : List Weekday) (es : List HabitEntry) (c t : Int),
        es ≠ [] →
        1 ≤ (Streak.calculate_from_entries hid es (.Custom ws) c t).longest_streak)
    ∧ (∀ (hid : Nat) (n : Nat) (es : List HabitEntry) (c t : Int), es ≠ [] →
        1 ≤ (Streak.calculate_from_entries hid es (.Interval n) c t).longest_streak)
    ∧ (Streak.calculate_from_entries 0 [⟨3⟩] (.Weekly 2) 0 20000).longest_streak
        = 0 := by
  refine ⟨?_, ?_, ?_, ?_, ?_, by decide⟩
  · intro hid es c t hes
    exact from_entries_longest_pos hid es _ c t hes (fun u h => Frequency.noConfusion h)
  · intro hid es c t hes
    exact from_entries_longest_pos hid es _ c t hes (fun u h => Frequency.noConfusion h)
  · intro hid es c t hes
    exact from_entries_longest_pos hid es _ c t hes (fun u h => Frequency.noConfusion h)
  · intro hid ws es c t hes
    exact from_entries_longest_pos hid es _ c t hes (fun u h => Frequency.noConfusion h)
  · intro hid n es c t hes
    exact from_entries_longest_pos hid es _ c t hes (fun u h => Frequency.noConfusion h)

/-- Claim C10 witness: a single-entry `Daily` habit reports a longest
streak of at least 1. -/
theorem claim_C10_longest_pos_nonweekly_witness :
    ([⟨0⟩] : List HabitEntry) ≠ []
    ∧ 1 ≤ (Streak.calculate_from_entries 0 [⟨0⟩] .Daily 0 5).longest_streak :=
  ⟨by decide, claim_C10_longest_pos_nonweekly.1 0 [⟨0⟩] 0 5 (by decide)⟩

end HabitTracker
